import Mathlib

/-!
Shallow embedding of the queuectl job queue (src/queuectl/db.py, manager.py,
worker.py) and proofs about its claim protocol, retry/backoff policy, DLQ
operations, enqueue validation and worker loop.

Modelling conventions:
* timestamps are integers (the code stores second-precision ISO-8601 strings
  whose lexicographic order coincides with chronological order);
* the SQLite `jobs` table is a list of rows in insertion order; the `config`
  table is an association list of string key/value pairs;
* SQL `UPDATE ... WHERE` statements become `List.map` with a per-row guarded
  update function; `SELECT ... LIMIT 1` becomes a fold selecting the first
  row with the extremal sort key (SQLite leaves the order of ties
  unspecified; the model fixes a deterministic choice);
* each operation is a pure function from the store (plus the current time
  and any external inputs such as an execution result) to the new store.
-/

namespace Queuectl

/-- Job states, as stored in the `state` column. -/
inductive JobState where
  | pending
  | processing
  | completed
  | failed
  | dead
deriving DecidableEq, Repr

/-- One row of the `jobs` table (db.py `init_db`, plus the stdout/stderr
migration columns). -/
structure Job where
  id : String
  command : String
  state : JobState
  attempts : Nat
  max_retries : Int
  created_at : Int
  updated_at : Int
  available_at : Option Int
  locked_by : Option String
  last_error : Option String
  stdout : Option String
  stderr : Option String
deriving DecidableEq, Repr

/-- The durable store: the `jobs` table in insertion order plus the
`config` key/value table. -/
structure Store where
  jobs : List Job
  config : List (String × String)
deriving DecidableEq, Repr

/-- db.py `get_config`: value of the first row with the key, or the default. -/
def getConfig (cfg : List (String × String)) (key default : String) : String :=
  match cfg.find? (fun p => p.1 == key) with
  | some p => p.2
  | none => default

/-- Python `str.strip()` on the character list: drop whitespace from both
ends. -/
def pyStripChars (l : List Char) : List Char :=
  ((l.dropWhile Char.isWhitespace).reverse.dropWhile Char.isWhitespace).reverse

/-- Python `str.strip()`. -/
def pyStrip (s : String) : String :=
  String.mk (pyStripChars s.data)

/-- Accumulate a decimal value across a run of digit characters; `none` as
soon as a non-digit appears. -/
def digitsVal : List Char → Nat → Option Nat
  | [], acc => some acc
  | c :: cs, acc =>
      if c.isDigit then digitsVal cs (acc * 10 + (c.toNat - 48)) else none

/-- A non-empty all-digit run parsed as a natural number. -/
def pyParseDigits (l : List Char) : Option Nat :=
  match l with
  | [] => none
  | _ => digitsVal l 0

/-- Python `int(s)` on a string: surrounding whitespace allowed, an optional
sign followed by a non-empty run of decimal digits; `none` when the string
does not parse (Python raises `ValueError`). -/
def pyStrToInt (s : String) : Option Int :=
  match pyStripChars s.data with
  | '-' :: rest => (pyParseDigits rest).map (fun n => -(n : Int))
  | '+' :: rest => (pyParseDigits rest).map (fun n => (n : Int))
  | l => (pyParseDigits l).map (fun n => (n : Int))

/-- worker.py `_get_backoff_base`: parse the `backoff_base` config value as an
integer, falling back to 2 on any parse failure. -/
def backoffBase (cfg : List (String × String)) : Int :=
  match pyStrToInt (getConfig cfg "backoff_base" "2") with
  | some n => n
  | none => 2

/-- manager.py `_get_default_max_retries`: parse `default_max_retries`,
falling back to 3. -/
def defaultMaxRetries (cfg : List (String × String)) : Int :=
  match pyStrToInt (getConfig cfg "default_max_retries" "3") with
  | some n => n
  | none => 3

/-- worker.py `_should_stop`: the `workers:stop` config value equals "1". -/
def shouldStop (cfg : List (String × String)) : Bool :=
  getConfig cfg "workers:stop" "0" == "1"

/-- The `available_at IS NULL OR available_at <= now` disjunct of the claim
query in worker.py `claim_job`. -/
def availOk (now : Int) (j : Job) : Bool :=
  match j.available_at with
  | none => true
  | some t => t ≤ now

/-- The full eligibility test of the claim subquery:
`state = 'pending' AND (available_at IS NULL OR available_at <= now)`. -/
def eligible (now : Int) (j : Job) : Bool :=
  j.state == .pending && availOk now j

/-- One step of the `ORDER BY created_at ASC LIMIT 1` scan: keep the row
with the smaller `created_at`, the earlier row on a tie. -/
def minByCreated (acc : Option Job) (j : Job) : Option Job :=
  match acc with
  | none => some j
  | some b => if j.created_at < b.created_at then some j else some b

/-- `ORDER BY created_at ASC LIMIT 1`: first row with minimal `created_at`
(ties resolved to the earlier row in table order). -/
def selectOldest (l : List Job) : Option Job :=
  l.foldl minByCreated none

/-- The per-row effect of the claim `UPDATE`: rows matching
`id = jid AND state = 'pending'` become processing, locked by the worker. -/
def claimUpdate (w : String) (now : Int) (jid : String) (j : Job) : Job :=
  if j.id = jid ∧ j.state = .pending then
    { j with state := .processing, locked_by := some w, updated_at := now }
  else j

/-- The read-back query of worker.py `claim_job`:
`SELECT * FROM jobs WHERE locked_by = ? AND state = 'processing'
ORDER BY updated_at DESC LIMIT 1` — first row with maximal `updated_at`
among the worker's processing rows. -/
def maxByUpdated (acc : Option Job) (j : Job) : Option Job :=
  match acc with
  | none => some j
  | some b => if b.updated_at < j.updated_at then some j else some b

/-- The read-back scan over the worker's processing rows. -/
def readBack (w : String) (l : List Job) : Option Job :=
  (l.filter (fun j => j.locked_by == some w && j.state == .processing)).foldl
    maxByUpdated none

/-- worker.py `claim_job`: atomically claim the next available pending job.
If the conditional update touches no row (`rowcount == 0`) return `none` and
leave the store unchanged; otherwise commit the update and read back the
worker's latest processing row. -/
def claim_job (s : Store) (now : Int) (w : String) : Option Job × Store :=
  match selectOldest (s.jobs.filter (eligible now)) with
  | none => (none, s)
  | some j =>
      let jobs' := s.jobs.map (claimUpdate w now j.id)
      (readBack w jobs', { s with jobs := jobs' })

/-- The outcome of running a job's command as an external process, as seen by
worker.py `execute_command`: either the process finished with an exit code and
captured streams, or `subprocess.run` raised `TimeoutExpired`, or launching
failed with some other exception. -/
inductive ExecOutcome where
  | finished (rc : Int) (out err : String)
  | timedOut (msg : String)
  | launchFailed (msg : String)
deriving DecidableEq, Repr

/-- worker.py `execute_command`: return `(returncode, stdout, stderr)`;
`TimeoutExpired` and any other launch exception are converted to a sentinel
result `(-1, "", explanatory message)` instead of propagating. -/
def execute_command : ExecOutcome → Int × String × String
  | .finished rc out err => (rc, out, err)
  | .timedOut msg => (-1, "", "TimeoutExpired: " ++ msg)
  | .launchFailed msg => (-1, "", "ExecutionError: " ++ msg)

/-- The composite `last_error` message written by worker.py `process_job_row`
on a failed execution: `f"exitcode={rc}; stderr={err}"`. -/
def errMsg (rc : Int) (err : String) : String :=
  "exitcode=" ++ toString rc ++ "; stderr=" ++ err

/-- The per-row effect of the three `UPDATE ... WHERE id = ?` statements in
worker.py `process_job_row`, for a fetched row `row` and execution result
`(rc, out, err)` at time `now` with configured backoff base `base`:
success → completed; failure → attempts incremented, then dead when the new
count exceeds `max_retries`, else pending again with exponential backoff. -/
def processUpdate (base : Int) (row : Job) (rc : Int) (out err : String)
    (now : Int) (j : Job) : Job :=
  if j.id = row.id then
    if rc = 0 then
      { j with state := .completed, updated_at := now, last_error := none,
               stdout := some out, stderr := some err }
    else
      let att := row.attempts + 1
      if (att : Int) > row.max_retries then
        { j with state := .dead, attempts := att, updated_at := now,
                 last_error := some (errMsg rc err),
                 stdout := some out, stderr := some err }
      else
        { j with state := .pending, attempts := att,
                 available_at := some (now + base ^ att), updated_at := now,
                 last_error := some (errMsg rc err),
                 stdout := some out, stderr := some err }
  else j

/-- worker.py `process_job_row`, given the execution result `(rc, out, err)` of
the row's command: apply the appropriate state update to the row with the
job's id. The backoff base is read from config (`_get_backoff_base`). -/
def process_job_row (s : Store) (row : Job) (rc : Int) (out err : String)
    (now : Int) : Store :=
  { s with jobs := s.jobs.map (processUpdate (backoffBase s.config) row rc out err now) }

/-- `SELECT * FROM jobs WHERE id = ?` — first row with the given id. -/
def getJob (s : Store) (jid : String) : Option Job :=
  s.jobs.find? (fun j => j.id == jid)

/-- The two error cases of manager.py `dlq_retry`. -/
inductive DlqError where
  | notFound
  | invalidState (st : JobState)
deriving DecidableEq, Repr

/-- The per-row effect of the `UPDATE` in manager.py `dlq_retry`. -/
def dlqRetryUpdate (now : Int) (jid : String) (j : Job) : Job :=
  if j.id = jid then
    { j with state := .pending, attempts := 0, available_at := some now,
             updated_at := now, last_error := none }
  else j

/-- manager.py `dlq_retry`: look the job up; fail with `notFound` or
`invalidState` (raising leaves the store untouched); otherwise reset the job
to pending with attempts 0, re-read it and return it. -/
def dlq_retry (s : Store) (jid : String) (now : Int) :
    Except DlqError Job × Store :=
  match getJob s jid with
  | none => (.error .notFound, s)
  | some row =>
      if row.state = .dead then
        let s' : Store := { s with jobs := s.jobs.map (dlqRetryUpdate now jid) }
        match getJob s' jid with
        | some updated => (.ok updated, s')
        | none => (.error .notFound, s')
      else
        (.error (.invalidState row.state), s)

/-- A JSON-like value, the result of `json.loads` on the enqueue payload
(floats omitted: the claims under study only involve the other shapes). -/
inductive JValue where
  | null
  | bool (b : Bool)
  | int (n : Int)
  | str (s : String)
  | arr (xs : List JValue)
  | obj (fields : List (String × JValue))
deriving Repr

/-- Python dict lookup `d.get(k)` on a parsed JSON object. -/
def jLookup (fields : List (String × JValue)) (k : String) : Option JValue :=
  match fields.find? (fun p => p.1 == k) with
  | some p => some p.2
  | none => none

/-- Python `int(x)` on a JSON value: ints pass through, booleans coerce to
0/1, strings parse as decimal integers; everything else raises (`none`). -/
def pyToInt : JValue → Option Int
  | .int n => some n
  | .bool b => some (if b then 1 else 0)
  | .str s => pyStrToInt s
  | _ => none

/-- The id-field check of manager.py `validate_job_dict`:
`"id" in d and isinstance(d["id"], str) and d["id"].strip()`. -/
def idFieldOk (fields : List (String × JValue)) : Bool :=
  match jLookup fields "id" with
  | some (.str i) => !(pyStrip i == "")
  | _ => false

/-- The command-field check of `validate_job_dict`, same shape as the id. -/
def commandFieldOk (fields : List (String × JValue)) : Bool :=
  match jLookup fields "command" with
  | some (.str c) => !(pyStrip c == "")
  | _ => false

/-- Python `x is None` on a JSON value. -/
def jIsNull : JValue → Bool
  | .null => true
  | _ => false

/-- The `max_retries` computation of `validate_job_dict`: absent (or JSON
null, which `d.get` also reports as `None`) → config default; otherwise
coerce with Python `int()` and reject negatives and non-coercible values. -/
def maxRetriesField (cfg : List (String × String))
    (fields : List (String × JValue)) : Except String Int :=
  match jLookup fields "max_retries" with
  | none => .ok (defaultMaxRetries cfg)
  | some mv =>
      if jIsNull mv then .ok (defaultMaxRetries cfg)
      else
        match pyToInt mv with
        | some n =>
            if n < 0 then .error "max_retries must be a non-negative integer"
            else .ok n
        | none => .error "max_retries must be a non-negative integer"

/-- manager.py `validate_job_dict`: validate the parsed payload and build the
normalized row (state pending, attempts 0, `created_at`, `updated_at` and
`available_at` all the enqueue time, no lock, no error). -/
def validate_job_dict (cfg : List (String × String)) (v : JValue)
    (now : Int) : Except String Job :=
  match v with
  | .obj fields =>
      match jLookup fields "id" with
      | some (.str i) =>
          if pyStrip i = "" then
            .error "job must contain a non-empty string 'id' field"
          else
            match jLookup fields "command" with
            | some (.str c) =>
                if pyStrip c = "" then
                  .error "job must contain a non-empty string 'command' field"
                else
                  match maxRetriesField cfg fields with
                  | .error e => .error e
                  | .ok mr =>
                      .ok { id := pyStrip i, command := pyStrip c,
                            state := .pending, attempts := 0,
                            max_retries := mr, created_at := now,
                            updated_at := now, available_at := some now,
                            locked_by := none, last_error := none,
                            stdout := none, stderr := none }
            | _ => .error "job must contain a non-empty string 'command' field"
      | _ => .error "job must contain a non-empty string 'id' field"
  | _ => .error "job must be a JSON object"

/-- manager.py `enqueue_job` on an already-parsed payload: validate, then
`INSERT` the normalized row, which the `id` primary key rejects when a row
with the same id already exists; any error leaves the table unchanged. -/
def enqueue_job (s : Store) (v : JValue) (now : Int) :
    Except String Job × Store :=
  match validate_job_dict s.config v now with
  | .error e => (.error e, s)
  | .ok job =>
      if s.jobs.any (fun j => j.id == job.id) then
        (.error "UNIQUE constraint failed: jobs.id", s)
      else
        (.ok job, { s with jobs := s.jobs ++ [job] })

/-- worker.py `run_worker`, with the unbounded `while True` loop given an
explicit iteration budget `fuel` and real time abstracted as a function
`times` of the iteration index; `exec` gives each command's execution result
(worker.py `execute_command`). Returns the final store together with the
number of iterations that claimed (and therefore executed) a job. Each
iteration first checks the stop flag and exits the loop when it is set;
otherwise it attempts a claim, sleeps when none is available, and processes
the claimed job otherwise. -/
def run_worker (w : String) (exec : String → Int × String × String)
    (times : Nat → Int) : Nat → Nat → Store → Store × Nat
  | 0, _, s => (s, 0)
  | fuel + 1, i, s =>
      if shouldStop s.config then (s, 0)
      else
        match claim_job s (times i) w with
        | (none, s') => run_worker w exec times fuel (i + 1) s'
        | (some row, s') =>
            let r := exec row.command
            let s2 := process_job_row s' row r.1 r.2.1 r.2.2 (times i)
            let res := run_worker w exec times fuel (i + 1) s2
            (res.1, res.2 + 1)

/-! ### Helper lemmas -/

/-- `find?` by id commutes with mapping an id-preserving row update. -/
theorem find?_map_of_id_eq (f : Job → Job) (hf : ∀ j, (f j).id = j.id)
    (jid : String) :
    ∀ l : List Job,
      (l.map f).find? (fun j => j.id == jid) =
        (l.find? (fun j => j.id == jid)).map f := by
  intro l
  induction l with
  | nil => rfl
  | cons a t ih =>
      by_cases h : a.id = jid
      · simp [List.find?, hf, h]
      · simp only [List.map_cons, List.find?]
        rw [show ((f a).id == jid) = false by simp [hf, h],
            show (a.id == jid) = false by simp [h]]
        exact ih

/-- `processUpdate` never changes a row's id. -/
theorem processUpdate_id (b : Int) (row : Job) (rc : Int) (out err : String)
    (now : Int) (j : Job) :
    (processUpdate b row rc out err now j).id = j.id := by
  unfold processUpdate
  split
  · split
    · rfl
    · dsimp only
      split <;> rfl
  · rfl

/-- `processUpdate` never changes a row's `locked_by`. -/
theorem processUpdate_locked_by (b : Int) (row : Job) (rc : Int)
    (out err : String) (now : Int) (j : Job) :
    (processUpdate b row rc out err now j).locked_by = j.locked_by := by
  unfold processUpdate
  split
  · split
    · rfl
    · dsimp only
      split <;> rfl
  · rfl

/-- `dlqRetryUpdate` never changes a row's id. -/
theorem dlqRetryUpdate_id (now : Int) (jid : String) (j : Job) :
    (dlqRetryUpdate now jid j).id = j.id := by
  unfold dlqRetryUpdate
  split <;> rfl

/-- Reading a job back after `process_job_row` returns the stored row with
the appropriate update applied. -/
theorem getJob_process_job_row (s : Store) (row : Job) (rc : Int)
    (out err : String) (now : Int) (jid : String) :
    getJob (process_job_row s row rc out err now) jid =
      (getJob s jid).map
        (processUpdate (backoffBase s.config) row rc out err now) := by
  unfold getJob process_job_row
  exact find?_map_of_id_eq _ (fun j => processUpdate_id _ _ _ _ _ _ j) jid _

/-- A successful `find?` by id means the found row has that id. -/
theorem getJob_id (s : Store) (jid : String) (j : Job)
    (h : getJob s jid = some j) : j.id = jid := by
  have := List.find?_some h
  simpa using this

/-! ### C6: execute_command converts faults to sentinel results -/

/-- **C6.** `execute_command` always returns an `(exit_code, stdout, stderr)`
triple — it is a total function on execution outcomes, so no fault escapes to
the caller.  A finished process yields its own exit code and streams; a
timeout and a launch failure both yield the sentinel exit code `-1`
(nonzero) with an explanatory stderr message. -/
theorem execute_command_never_raises :
    (∀ rc out err, execute_command (.finished rc out err) = (rc, out, err)) ∧
    (∀ msg, execute_command (.timedOut msg) =
        (-1, "", "TimeoutExpired: " ++ msg)) ∧
    (∀ msg, execute_command (.launchFailed msg) =
        (-1, "", "ExecutionError: " ++ msg)) ∧
    (-1 : Int) ≠ 0 :=
  ⟨fun _ _ _ => rfl, fun _ => rfl, fun _ => rfl, by decide⟩

/-! ### C7: success path -/

/-- **C7.** When the execution returns exit code 0, `process_job_row` sets the
job's state to `completed`, clears `last_error`, stores the captured stdout
and stderr, and leaves the attempts counter unchanged; in particular a job
that succeeds on its first execution ends completed with `attempts = 0`. -/
theorem process_job_row_success (s : Store) (row j : Job) (out err : String)
    (now : Int) (hj : getJob s row.id = some j) :
    getJob (process_job_row s row 0 out err now) row.id =
      some { j with state := .completed, updated_at := now,
                    last_error := none, stdout := some out,
                    stderr := some err } ∧
    (∀ jj, getJob (process_job_row s row 0 out err now) row.id = some jj →
      jj.attempts = j.attempts ∧ (j.attempts = 0 → jj.attempts = 0)) := by
  have hid : j.id = row.id := getJob_id _ _ _ hj
  have hmain : getJob (process_job_row s row 0 out err now) row.id =
      some { j with state := .completed, updated_at := now,
                    last_error := none, stdout := some out,
                    stderr := some err } := by
    rw [getJob_process_job_row, hj]
    simp [processUpdate, hid]
  refine ⟨hmain, ?_⟩
  intro jj hjj
  rw [hmain] at hjj
  cases hjj
  exact ⟨rfl, fun h => h⟩

/-- A concrete processing row, used to instantiate theorems about
`process_job_row`. -/
def sampleProcessing : Job :=
  { id := "j1", command := "ok", state := .processing, attempts := 0,
    max_retries := 3, created_at := 0, updated_at := 1,
    available_at := some 0, locked_by := some "w1", last_error := none,
    stdout := none, stderr := none }

/-- Concrete instance discharging the hypotheses of
`process_job_row_success`. -/
theorem process_job_row_success_witness :
    (getJob (process_job_row { jobs := [sampleProcessing], config := [] }
        sampleProcessing 0 "out" "err" 2) "j1").map
      (fun j => (j.state, j.attempts, j.last_error)) =
      some (.completed, 0, none) := by
  have h := process_job_row_success { jobs := [sampleProcessing], config := [] }
    sampleProcessing sampleProcessing "out" "err" 2 (by rfl)
  have h1 := h.1
  rw [show sampleProcessing.id = "j1" from rfl] at h1
  rw [h1]
  rfl

/-! ### C3: retry with exponential backoff -/

/-- **C3.** When the execution fails (`rc ≠ 0`) and the incremented attempt
count `k = attempts + 1` is still within `max_retries`, `process_job_row`
returns the job to `pending` with `available_at = now + backoff_base ^ k`,
stores the captured output, and writes a `last_error` containing the exit
code and the captured stderr. -/
theorem process_job_row_retry_backoff (s : Store) (row j : Job) (rc : Int)
    (out err : String) (now : Int) (hrc : rc ≠ 0)
    (hle : ((row.attempts + 1 : Nat) : Int) ≤ row.max_retries)
    (hj : getJob s row.id = some j) :
    getJob (process_job_row s row rc out err now) row.id =
      some { j with state := .pending, attempts := row.attempts + 1,
                    available_at :=
                      some (now + backoffBase s.config ^ (row.attempts + 1)),
                    updated_at := now,
                    last_error := some (errMsg rc err),
                    stdout := some out, stderr := some err } ∧
    errMsg rc err = "exitcode=" ++ toString rc ++ "; stderr=" ++ err := by
  have hid : j.id = row.id := getJob_id _ _ _ hj
  constructor
  · rw [getJob_process_job_row, hj]
    show some _ = some _
    congr 1
    unfold processUpdate
    rw [if_pos hid, if_neg hrc]
    dsimp only
    rw [if_neg (not_lt.mpr hle)]
  · rfl

/-- Concrete instance discharging the hypotheses of
`process_job_row_retry_backoff`: one failure of a fresh job with the default
backoff base 2 reschedules it for `now + 2 ^ 1`. -/
theorem process_job_row_retry_backoff_witness :
    (getJob (process_job_row { jobs := [sampleProcessing], config := [] }
        sampleProcessing 7 "o" "e" 10) "j1").map
      (fun j => (j.state, j.attempts, j.available_at, j.last_error)) =
      some (.pending, 1, some 12, some "exitcode=7; stderr=e") := by
  have h := process_job_row_retry_backoff
    { jobs := [sampleProcessing], config := [] } sampleProcessing
    sampleProcessing 7 "o" "e" 10 (by decide) (by decide) (by rfl)
  have h1 := h.1
  rw [show sampleProcessing.id = "j1" from rfl] at h1
  rw [h1]
  rfl

/-! ### C5: DLQ retry -/

/-- A concrete dead row for instantiating the DLQ theorems. -/
def sampleDead : Job :=
  { id := "j2", command := "x", state := .dead, attempts := 4,
    max_retries := 3, created_at := 0, updated_at := 5,
    available_at := some 3, locked_by := some "w1",
    last_error := some "boom", stdout := none, stderr := none }

/-- **C5.** `dlq_retry` fails with `notFound` when no job has the id and with
`invalidState` when the job is not dead, mutating nothing in either case;
on a dead job it atomically resets `attempts` to 0, clears `last_error`,
sets `available_at` to now, transitions the row to `pending` and returns the
updated row. -/
theorem dlq_retry_spec (s : Store) (jid : String) (now : Int) :
    (getJob s jid = none → dlq_retry s jid now = (.error .notFound, s)) ∧
    (∀ row, getJob s jid = some row → row.state ≠ .dead →
        dlq_retry s jid now = (.error (.invalidState row.state), s)) ∧
    (∀ row, getJob s jid = some row → row.state = .dead →
        (dlq_retry s jid now).1 =
          .ok { row with state := .pending, attempts := 0,
                         available_at := some now, updated_at := now,
                         last_error := none } ∧
        (dlq_retry s jid now).2 =
          { s with jobs := s.jobs.map (dlqRetryUpdate now jid) }) := by
  refine ⟨?_, ?_, ?_⟩
  · intro h
    unfold dlq_retry
    rw [h]
  · intro row h hne
    unfold dlq_retry
    rw [h]
    dsimp only
    rw [if_neg hne]
  · intro row h hd
    have hid : row.id = jid := getJob_id _ _ _ h
    have hfind :
        getJob ({ s with jobs := s.jobs.map (dlqRetryUpdate now jid) } : Store)
          jid = some (dlqRetryUpdate now jid row) := by
      unfold getJob
      dsimp only
      rw [find?_map_of_id_eq _ (fun j => dlqRetryUpdate_id _ _ j) jid s.jobs]
      unfold getJob at h
      rw [h]
      rfl
    unfold dlq_retry
    rw [h]
    dsimp only
    rw [if_pos hd, hfind]
    refine ⟨?_, rfl⟩
    dsimp only
    congr 1
    unfold dlqRetryUpdate
    rw [if_pos hid]

/-- Concrete instance discharging the hypotheses of `dlq_retry_spec`:
retrying a dead job resets it, and a missing id reports not-found. -/
theorem dlq_retry_spec_witness :
    (dlq_retry { jobs := [sampleDead], config := [] } "j2" 9).1 =
      .ok { sampleDead with state := .pending, attempts := 0,
                            available_at := some 9, updated_at := 9,
                            last_error := none } ∧
    (dlq_retry { jobs := [sampleDead], config := [] } "zz" 9).1 =
      .error .notFound := by
  constructor
  · exact ((dlq_retry_spec { jobs := [sampleDead], config := [] } "j2" 9).2.2
      sampleDead (by rfl) (by rfl)).1
  · have h := (dlq_retry_spec { jobs := [sampleDead], config := [] } "zz" 9).1
      (by rfl)
    rw [h]

/-! ### C9: stop flag honoured before any claim -/

/-- **C9.** A worker whose store has the `workers:stop` config flag equal to
"1" observes it at the top of its first iteration and exits before attempting
any claim: `run_worker` returns the store unchanged, having claimed (and
hence executed) nothing, whatever the fuel, iteration index, command
executor and clock. -/
theorem run_worker_stop_flag (s : Store) (w : String)
    (exec : String → Int × String × String) (times : Nat → Int)
    (h : getConfig s.config "workers:stop" "0" = "1") :
    ∀ fuel i, run_worker w exec times fuel i s = (s, 0) := by
  have hs : shouldStop s.config = true := by
    unfold shouldStop
    rw [h]
    rfl
  intro fuel i
  cases fuel with
  | zero => rfl
  | succ n =>
      unfold run_worker
      rw [hs]
      rfl

/-- A concrete immediately-claimable pending row. -/
def samplePending : Job :=
  { id := "p1", command := "c", state := .pending, attempts := 0,
    max_retries := 3, created_at := 0, updated_at := 0,
    available_at := some 0, locked_by := none, last_error := none,
    stdout := none, stderr := none }

/-- Concrete instance discharging the hypothesis of `run_worker_stop_flag`:
with the stop flag set, a worker exits even though an eligible pending job
is sitting in the queue. -/
theorem run_worker_stop_flag_witness :
    run_worker "w1" (fun _ => (0, "", "")) (fun _ => 0) 3 0
      { jobs := [samplePending], config := [("workers:stop", "1")] } =
      ({ jobs := [samplePending], config := [("workers:stop", "1")] }, 0) :=
  run_worker_stop_flag _ "w1" _ _ (by rfl) 3 0

/-! ### C10: newly enqueued jobs are immediately eligible -/

/-- The normalized row built by a successful `validate_job_dict` is pending
with zero attempts, timestamps equal to the enqueue time, `available_at`
equal to `created_at`, and no lock or error. -/
theorem validate_ok_fields (cfg : List (String × String)) (v : JValue)
    (now : Int) (job : Job) (h : validate_job_dict cfg v now = .ok job) :
    job.state = .pending ∧ job.attempts = 0 ∧ job.created_at = now ∧
    job.updated_at = now ∧ job.available_at = some now ∧
    job.locked_by = none ∧ job.last_error = none ∧
    job.stdout = none ∧ job.stderr = none := by
  unfold validate_job_dict at h
  repeat' split at h
  all_goals try exact Except.noConfusion h
  all_goals cases h
  all_goals exact ⟨rfl, rfl, rfl, rfl, rfl, rfl, rfl, rfl, rfl⟩

/-- **C10.** A successful enqueue writes the new job with `available_at` set
equal to `created_at` (the enqueue-time timestamp) rather than unset, so the
job is eligible for claiming from its creation time; the row is appended to
the table. -/
theorem enqueue_available_eq_created (s : Store) (v : JValue) (now : Int)
    (job : Job) (h : (enqueue_job s v now).1 = .ok job) :
    job.available_at = some job.created_at ∧ job.created_at = now ∧
    (enqueue_job s v now).2.jobs = s.jobs ++ [job] := by
  revert h
  unfold enqueue_job
  rcases hv : validate_job_dict s.config v now with e | jj
  · intro h
    exact Except.noConfusion h
  · dsimp only
    split
    · intro h
      exact Except.noConfusion h
    · intro h
      cases h
      have hf := validate_ok_fields s.config v now _ hv
      exact ⟨by rw [hf.2.2.2.2.1, hf.2.2.1], hf.2.2.1, rfl⟩

/-- Concrete instance discharging the hypothesis of
`enqueue_available_eq_created`. -/
theorem enqueue_available_eq_created_witness :
    ((enqueue_job { jobs := [], config := [] }
        (.obj [("id", JValue.str "a"), ("command", JValue.str "b")])
        5).2.jobs.map (fun j => (j.available_at, j.created_at))) =
      [(some 5, 5)] := by
  have hok : (enqueue_job { jobs := [], config := [] }
      (.obj [("id", JValue.str "a"), ("command", JValue.str "b")]) 5).1 =
      .ok { id := "a", command := "b", state := .pending, attempts := 0,
            max_retries := 3, created_at := 5, updated_at := 5,
            available_at := some 5, locked_by := none, last_error := none,
            stdout := none, stderr := none } := by rfl
  have h := enqueue_available_eq_created _ _ _ _ hok
  rw [h.2.2]
  rfl

/-! ### C4: locked_by versus processing -/

/-- **C4 is false on the code**: a reachable state in which a `completed` job
still carries `locked_by`.  Starting from an empty store, enqueue a job,
claim it with worker "w1", and process a successful execution: the job ends
in state `completed` with `locked_by` still `some "w1"` — none of the
`UPDATE` statements in `process_job_row` clears `locked_by`. -/
theorem locked_by_iff_processing_cex :
    ((process_job_row
        (claim_job (enqueue_job { jobs := [], config := [] }
            (.obj [("id", JValue.str "j1"), ("command", JValue.str "ok")])
            0).2 1 "w1").2
        ((claim_job (enqueue_job { jobs := [], config := [] }
            (.obj [("id", JValue.str "j1"), ("command", JValue.str "ok")])
            0).2 1 "w1").1.getD samplePending)
        0 "" "" 2).jobs.map (fun j => (j.state, j.locked_by))) =
      [(.completed, some "w1")] := by
  rfl

/-- **C4 (amended).** `claim_job` does bind `locked_by` to the claiming
worker when it transitions a pending row to processing, but every transition
out of `processing` performed by `process_job_row` leaves `locked_by`
unchanged (still set) rather than unset: `locked_by` records the last
claimant, so `state = processing` implies `locked_by` is set, but not
conversely. -/
theorem locked_by_amended :
    (∀ (w : String) (now : Int) (jid : String) (j : Job),
        j.id = jid → j.state = .pending →
        (claimUpdate w now jid j).state = .processing ∧
        (claimUpdate w now jid j).locked_by = some w) ∧
    (∀ (b : Int) (row : Job) (rc : Int) (out err : String) (now : Int)
        (j : Job),
        (processUpdate b row rc out err now j).locked_by = j.locked_by) ∧
    (∀ (s : Store) (row : Job) (rc : Int) (out err : String) (now : Int)
        (k : Job), k ∈ (process_job_row s row rc out err now).jobs →
        ∃ k0 ∈ s.jobs, k.locked_by = k0.locked_by ∧ k.id = k0.id) := by
  refine ⟨?_, ?_, ?_⟩
  · intro w now jid j h1 h2
    unfold claimUpdate
    rw [if_pos ⟨h1, h2⟩]
    exact ⟨rfl, rfl⟩
  · intro b row rc out err now j
    exact processUpdate_locked_by b row rc out err now j
  · intro s row rc out err now k hk
    unfold process_job_row at hk
    dsimp only at hk
    rcases List.mem_map.mp hk with ⟨k0, hk0, rfl⟩
    exact ⟨k0, hk0, processUpdate_locked_by _ _ _ _ _ _ k0,
           processUpdate_id _ _ _ _ _ _ k0⟩

/-- Concrete instance discharging the hypotheses of `locked_by_amended`. -/
theorem locked_by_amended_witness :
    (claimUpdate "w1" 1 "p1" samplePending).state = .processing ∧
    (claimUpdate "w1" 1 "p1" samplePending).locked_by = some "w1" :=
  locked_by_amended.1 "w1" 1 "p1" samplePending rfl rfl

/-! ### C1: the claim protocol -/

/-- A stale processing row held by worker "w1" whose `updated_at` lies in the
future of the claim instant. -/
def staleRow : Job :=
  { id := "a", command := "x", state := .processing, attempts := 0,
    max_retries := 3, created_at := 0, updated_at := 100,
    available_at := none, locked_by := some "w1", last_error := none,
    stdout := none, stderr := none }

/-- An eligible pending row, created after `staleRow`. -/
def freshRow : Job :=
  { id := "b", command := "y", state := .pending, attempts := 0,
    max_retries := 3, created_at := 1, updated_at := 1,
    available_at := none, locked_by := none, last_error := none,
    stdout := none, stderr := none }

/-- **C1 is false on the code as stated**: `claim_job` can return a row other
than the one it just claimed.  In a store where worker "w1" already holds a
processing row whose `updated_at` (100) exceeds the claim instant (50), the
only eligible pending job is "b" and the update duly transitions exactly
"b" to processing — but the read-back query (`WHERE locked_by = ? AND
state = 'processing' ORDER BY updated_at DESC LIMIT 1`) returns the stale
row "a" instead of the claimed row "b". -/
theorem claim_job_returns_other_row_cex :
    (({ jobs := [staleRow, freshRow], config := [] } : Store).jobs.filter
        (eligible 50)) = [freshRow] ∧
    freshRow.id = "b" ∧
    ((claim_job { jobs := [staleRow, freshRow], config := [] } 50
        "w1").2.jobs.map (fun j => (j.id, j.state))) =
      [("a", .processing), ("b", .processing)] ∧
    ((claim_job { jobs := [staleRow, freshRow], config := [] } 50 "w1").1).map
      Job.id = some "a" := by
  exact ⟨rfl, rfl, rfl, rfl⟩

/-- Unfolding equation for `minByCreated` on a `some` accumulator. -/
theorem minByCreated_some (b a : Job) :
    minByCreated (some b) a =
      if a.created_at < b.created_at then some a else some b := rfl

/-- Unfolding equation for `maxByUpdated` on a `some` accumulator. -/
theorem maxByUpdated_some (b a : Job) :
    maxByUpdated (some b) a =
      if b.updated_at < a.updated_at then some a else some b := rfl

/-- A row produced by the `minByCreated` scan comes from the list (or was
already the accumulator). -/
theorem foldl_minByCreated_mem :
    ∀ (l : List Job) (acc : Option Job) (j : Job),
      l.foldl minByCreated acc = some j → j ∈ l ∨ acc = some j := by
  intro l
  induction l with
  | nil => exact fun acc j h => Or.inr h
  | cons a t ih =>
      intro acc j h
      rcases ih (minByCreated acc a) j h with hmem | hacc
      · exact Or.inl (List.mem_cons_of_mem _ hmem)
      · cases acc with
        | none =>
            cases hacc
            exact Or.inl (List.mem_cons_self _ _)
        | some b =>
            rw [minByCreated_some] at hacc
            by_cases hlt : a.created_at < b.created_at
            · rw [if_pos hlt] at hacc
              cases hacc
              exact Or.inl (List.mem_cons_self _ _)
            · rw [if_neg hlt] at hacc
              exact Or.inr hacc

/-- The row produced by the `minByCreated` scan has minimal `created_at`
among the scanned rows and the accumulator. -/
theorem foldl_minByCreated_min :
    ∀ (l : List Job) (acc : Option Job) (j : Job),
      l.foldl minByCreated acc = some j →
      (∀ b, acc = some b → j.created_at ≤ b.created_at) ∧
      (∀ k ∈ l, j.created_at ≤ k.created_at) := by
  intro l
  induction l with
  | nil =>
      intro acc j h
      refine ⟨?_, by simp⟩
      intro b hb
      rw [hb] at h
      cases h
      exact le_refl _
  | cons a t ih =>
      intro acc j h
      obtain ⟨h1, h2⟩ := ih (minByCreated acc a) j h
      have hja : j.created_at ≤ a.created_at := by
        cases acc with
        | none => exact h1 a rfl
        | some b =>
            by_cases hlt : a.created_at < b.created_at
            · exact h1 a (by rw [minByCreated_some, if_pos hlt])
            · exact le_trans
                (h1 b (by rw [minByCreated_some, if_neg hlt]))
                (not_lt.mp hlt)
      refine ⟨?_, ?_⟩
      · intro b hb
        cases acc with
        | none => cases hb
        | some b0 =>
            cases hb
            by_cases hlt : a.created_at < b.created_at
            · exact le_trans hja (le_of_lt hlt)
            · exact h1 b (by rw [minByCreated_some, if_neg hlt])
      · intro k hk
        rcases List.mem_cons.mp hk with heq | hk'
        · rw [heq]
          exact hja
        · exact h2 k hk'

/-- Scanning a list whose rows all equal `x` from accumulator `some x`
stays at `some x`. -/
theorem foldl_maxByUpdated_const (x : Job) :
    ∀ l : List Job, (∀ k ∈ l, k = x) →
      l.foldl maxByUpdated (some x) = some x := by
  intro l
  induction l with
  | nil => exact fun _ => rfl
  | cons a t ih =>
      intro h
      have ha : a = x := h a (List.mem_cons_self _ _)
      have hstep : maxByUpdated (some x) a = some x := by
        rw [ha, maxByUpdated_some, if_neg (lt_irrefl _)]
      rw [List.foldl_cons, hstep]
      exact ih (fun k hk => h k (List.mem_cons_of_mem _ hk))

/-- Scanning a non-empty list whose rows all equal `x` yields `some x`. -/
theorem foldl_maxByUpdated_all_eq (x : Job) :
    ∀ l : List Job, l ≠ [] → (∀ k ∈ l, k = x) →
      l.foldl maxByUpdated none = some x := by
  intro l hne h
  cases l with
  | nil => exact absurd rfl hne
  | cons a t =>
      have ha : a = x := h a (List.mem_cons_self _ _)
      rw [List.foldl_cons]
      rw [show maxByUpdated none a = some x by rw [ha]; rfl]
      exact foldl_maxByUpdated_const x t
        (fun k hk => h k (List.mem_cons_of_mem _ hk))

/-- **C1 (amended).** `claim_job` selects the oldest-by-`created_at` pending
job whose `available_at` is unset or ≤ now, transitions exactly that row to
`processing` with `locked_by` bound to the worker, and returns `none` with
the store unchanged when no job is eligible.  The returned row, however, is
obtained by re-reading the worker's processing row with the greatest
`updated_at`; it is the row just claimed whenever the worker holds no other
processing row, but not in general (see the counterexample). -/
theorem claim_job_spec (s : Store) (now : Int) (w : String) :
    ((∀ j ∈ s.jobs, eligible now j = false) → claim_job s now w = (none, s)) ∧
    (∀ j, selectOldest (s.jobs.filter (eligible now)) = some j →
        j ∈ s.jobs ∧ j.state = .pending ∧ availOk now j = true ∧
        (∀ k ∈ s.jobs, eligible now k = true →
            j.created_at ≤ k.created_at) ∧
        (claim_job s now w).2 =
          { s with jobs := s.jobs.map (claimUpdate w now j.id) } ∧
        (∀ k ∈ s.jobs, k.id ≠ j.id → k ∈ (claim_job s now w).2.jobs) ∧
        ((∀ k ∈ s.jobs, k.id = j.id → k = j) →
         (∀ k ∈ s.jobs, ¬(k.locked_by = some w ∧ k.state = .processing)) →
         (claim_job s now w).1 =
           some { j with state := .processing, locked_by := some w,
                         updated_at := now })) := by
  constructor
  · intro h
    have hf : s.jobs.filter (eligible now) = [] := by
      rw [List.filter_eq_nil_iff]
      intro a ha
      rw [h a ha]
      exact Bool.false_ne_true
    unfold claim_job
    rw [hf]
    rfl
  · intro j hsel
    have hmem_f : j ∈ s.jobs.filter (eligible now) := by
      rcases foldl_minByCreated_mem _ none j hsel with hmem | hacc
      · exact hmem
      · exact Option.noConfusion hacc
    have hj_mem : j ∈ s.jobs := (List.mem_filter.mp hmem_f).1
    have helig : eligible now j = true := (List.mem_filter.mp hmem_f).2
    have hpend : j.state = .pending := by
      have h' := helig
      unfold eligible at h'
      rw [Bool.and_eq_true] at h'
      exact beq_iff_eq.mp h'.1
    have havail : availOk now j = true := by
      have h' := helig
      unfold eligible at h'
      rw [Bool.and_eq_true] at h'
      exact h'.2
    have hmin : ∀ k ∈ s.jobs, eligible now k = true →
        j.created_at ≤ k.created_at := by
      intro k hk he
      exact (foldl_minByCreated_min _ none j hsel).2 k
        (List.mem_filter.mpr ⟨hk, he⟩)
    have hcj : claim_job s now w =
        (readBack w (s.jobs.map (claimUpdate w now j.id)),
         { s with jobs := s.jobs.map (claimUpdate w now j.id) }) := by
      unfold claim_job
      rw [hsel]
    refine ⟨hj_mem, hpend, havail, hmin, by rw [hcj], ?_, ?_⟩
    · intro k hk hne
      rw [hcj]
      have hunch : claimUpdate w now j.id k = k := by
        unfold claimUpdate
        rw [if_neg]
        rintro ⟨h1, _⟩
        exact hne h1
      exact hunch ▸ List.mem_map_of_mem _ hk
    · intro huniq hnoproc
      rw [hcj]
      show readBack w (s.jobs.map (claimUpdate w now j.id)) = _
      unfold readBack
      have hcu : claimUpdate w now j.id j =
          { j with state := .processing, locked_by := some w,
                   updated_at := now } := by
        unfold claimUpdate
        rw [if_pos ⟨rfl, hpend⟩]
      have hj'in : claimUpdate w now j.id j ∈
          (s.jobs.map (claimUpdate w now j.id)).filter
            (fun k => k.locked_by == some w && k.state == .processing) := by
        apply List.mem_filter.mpr
        refine ⟨List.mem_map_of_mem _ hj_mem, ?_⟩
        rw [hcu]
        simp
      rw [← hcu]
      apply foldl_maxByUpdated_all_eq _ _ (List.ne_nil_of_mem hj'in)
      intro k hk
      have hk1 : k ∈ s.jobs.map (claimUpdate w now j.id) :=
        (List.mem_filter.mp hk).1
      have hk2 := (List.mem_filter.mp hk).2
      rcases List.mem_map.mp hk1 with ⟨k0, hk0, hk0eq⟩
      by_cases hcase : k0.id = j.id ∧ k0.state = .pending
      · have hk0j : k0 = j := huniq k0 hk0 hcase.1
        rw [← hk0eq, hk0j]
      · have hunch : claimUpdate w now j.id k0 = k0 := by
          unfold claimUpdate
          rw [if_neg hcase]
        rw [← hk0eq, hunch] at hk2
        rw [Bool.and_eq_true] at hk2
        exact absurd ⟨beq_iff_eq.mp hk2.1, beq_iff_eq.mp hk2.2⟩
          (hnoproc k0 hk0)

/-- Concrete instance discharging the hypotheses of `claim_job_spec`: on a
singleton store with one eligible pending job, the claim returns exactly the
transitioned row. -/
theorem claim_job_spec_witness :
    (claim_job { jobs := [samplePending], config := [] } 0 "w1").1 =
      some { samplePending with state := .processing,
                                locked_by := some "w1",
                                updated_at := 0 } := by
  have h := (claim_job_spec { jobs := [samplePending], config := [] }
    0 "w1").2 samplePending (by rfl)
  exact h.2.2.2.2.2.2
    (by
      intro k hk _
      simpa using hk)
    (by
      intro k hk
      have : k = samplePending := by simpa using hk
      rw [this]
      rintro ⟨_, hst⟩
      exact absurd hst (by simp [samplePending]))

/-! ### C2: terminal convergence of an always-failing job -/

/-- The `available_at` value of an always-failing job before its `i`-th
claim: initially `a0`, and after the failed cycle at time `times i` it is
`times i + b ^ (i + 1)` (the exponential backoff written by
`process_job_row`). -/
def failAvail (a0 b : Int) (times : Nat → Int) : Nat → Int
  | 0 => a0
  | i + 1 => times i + b ^ (i + 1)

/-- The trajectory of a single job under repeated claim-and-process cycles
whose executions all return `rc`: step `i` claims the row (processing,
locked, `updated_at := times i`) and then applies `processUpdate` to it. -/
def jobTraj (w : String) (b rc : Int) (out err : String)
    (times : Nat → Int) (j0 : Job) : Nat → Job
  | 0 => j0
  | i + 1 =>
      let c := { jobTraj w b rc out err times j0 i with
                 state := .processing, locked_by := some w,
                 updated_at := times i }
      processUpdate b c rc out err (times i) c

/-- Claiming on a singleton store whose job is eligible transitions it and
returns exactly it. -/
theorem claim_job_single_eligible (cfg : List (String × String)) (j : Job)
    (t : Int) (w : String) (hp : j.state = .pending)
    (ha : availOk t j = true) :
    claim_job { jobs := [j], config := cfg } t w =
      (some { j with state := .processing, locked_by := some w, updated_at := t },
       { jobs := [{ j with state := .processing, locked_by := some w, updated_at := t }], config := cfg }) := by
  have he : eligible t j = true := by
    unfold eligible
    rw [hp, ha]
    rfl
  have hcu : claimUpdate w t j.id j =
      { j with state := .processing, locked_by := some w, updated_at := t } := by
    unfold claimUpdate
    rw [if_pos ⟨rfl, hp⟩]
  unfold claim_job
  rw [show ({ jobs := [j], config := cfg } : Store).jobs.filter (eligible t)
      = [j] by simp [he]]
  rw [show selectOldest [j] = some j from rfl]
  dsimp only
  rw [show ({ jobs := [j], config := cfg } : Store).jobs.map
      (claimUpdate w t j.id) = [claimUpdate w t j.id j] from rfl, hcu]
  refine Prod.ext ?_ rfl
  show readBack w [{ j with state := .processing, locked_by := some w, updated_at := t }] =
      some { j with state := .processing, locked_by := some w, updated_at := t }
  simp [readBack, maxByUpdated]

/-- Claiming on a singleton store whose job is not eligible touches nothing
and returns `none`. -/
theorem claim_job_single_not_eligible (cfg : List (String × String))
    (j : Job) (t : Int) (w : String) (hne : eligible t j = false) :
    claim_job { jobs := [j], config := cfg } t w =
      (none, { jobs := [j], config := cfg }) := by
  unfold claim_job
  rw [show ({ jobs := [j], config := cfg } : Store).jobs.filter (eligible t)
      = [] by simp [hne]]
  rfl

/-- `process_job_row` on a singleton store applies the row update to the
single row. -/
theorem process_job_row_single (cfg : List (String × String)) (j row : Job)
    (rc : Int) (out err : String) (t : Int) :
    process_job_row { jobs := [j], config := cfg } row rc out err t =
      { jobs := [processUpdate (backoffBase cfg) row rc out err t j],
        config := cfg } := rfl

/-- A worker loop over a singleton store holding a dead job does nothing:
a dead row is never eligible, so every iteration claims nothing. -/
theorem run_worker_single_dead (w : String)
    (exec : String → Int × String × String) (times : Nat → Int)
    (cfg : List (String × String)) (j : Job)
    (hstop : shouldStop cfg = false) (hd : j.state = .dead) :
    ∀ fuel i, run_worker w exec times fuel i { jobs := [j], config := cfg } =
      ({ jobs := [j], config := cfg }, 0) := by
  intro fuel
  induction fuel with
  | zero => intro i; rfl
  | succ n ih =>
      intro i
      have hne : eligible (times i) j = false := by
        unfold eligible
        rw [hd]
        rfl
      unfold run_worker
      rw [hstop]
      rw [claim_job_single_not_eligible cfg j (times i) w hne]
      exact ih (i + 1)

/-- `processUpdate` applied to the fetched row itself, failing within the
retry budget: back to pending with exponential backoff. -/
theorem processUpdate_self_retry (b rc : Int) (out err : String) (t : Int)
    (c : Job) (hrc : rc ≠ 0)
    (hle : ((c.attempts + 1 : Nat) : Int) ≤ c.max_retries) :
    processUpdate b c rc out err t c =
      { c with state := .pending, attempts := c.attempts + 1, available_at := some (t + b ^ (c.attempts + 1)), updated_at := t, last_error := some (errMsg rc err), stdout := some out, stderr := some err } := by
  unfold processUpdate
  rw [if_pos rfl, if_neg hrc]
  dsimp only
  rw [if_neg (not_lt.mpr hle)]

/-- `processUpdate` applied to the fetched row itself, failing past the
retry budget: the row moves to the DLQ. -/
theorem processUpdate_self_dead (b rc : Int) (out err : String) (t : Int)
    (c : Job) (hrc : rc ≠ 0)
    (hgt : ((c.attempts + 1 : Nat) : Int) > c.max_retries) :
    processUpdate b c rc out err t c =
      { c with state := .dead, attempts := c.attempts + 1, updated_at := t, last_error := some (errMsg rc err), stdout := some out, stderr := some err } := by
  unfold processUpdate
  rw [if_pos rfl, if_neg hrc]
  dsimp only
  rw [if_pos hgt]

/-- While within the retry budget, the trajectory of an always-failing job
stays pending with `attempts = i` and the backoff-scheduled
`available_at`. -/
theorem jobTraj_fields (w : String) (b rc : Int) (out err : String)
    (times : Nat → Int) (j0 : Job) (a0 : Int) (r : Nat)
    (hrc : rc ≠ 0) (hstate : j0.state = .pending) (hatt : j0.attempts = 0)
    (hav : j0.available_at = some a0) (hmr : j0.max_retries = (r : Int)) :
    ∀ i, i ≤ r →
      (jobTraj w b rc out err times j0 i).state = .pending ∧
      (jobTraj w b rc out err times j0 i).attempts = i ∧
      (jobTraj w b rc out err times j0 i).available_at =
        some (failAvail a0 b times i) ∧
      (jobTraj w b rc out err times j0 i).id = j0.id ∧
      (jobTraj w b rc out err times j0 i).max_retries = (r : Int) ∧
      (jobTraj w b rc out err times j0 i).command = j0.command := by
  intro i
  induction i with
  | zero =>
      intro _
      refine ⟨hstate, hatt, ?_, rfl, hmr, rfl⟩
      show j0.available_at = some (failAvail a0 b times 0)
      rw [hav]
      rfl
  | succ n ih =>
      intro hle
      obtain ⟨hs, ha, hv, hid, hm, hc⟩ := ih (Nat.le_of_succ_le hle)
      have hcond : (((jobTraj w b rc out err times j0 n).attempts + 1 : Nat) : Int) ≤
          (jobTraj w b rc out err times j0 n).max_retries := by
        rw [ha, hm]
        exact_mod_cast hle
      have hres := processUpdate_self_retry b rc out err (times n)
        { jobTraj w b rc out err times j0 n with state := .processing, locked_by := some w, updated_at := times n }
        hrc hcond
      have hstep : jobTraj w b rc out err times j0 (n + 1) =
          processUpdate b { jobTraj w b rc out err times j0 n with state := .processing, locked_by := some w, updated_at := times n } rc out err (times n) { jobTraj w b rc out err times j0 n with state := .processing, locked_by := some w, updated_at := times n } := rfl
      rw [hstep, hres]
      refine ⟨rfl, ?_, ?_, ?_, ?_, ?_⟩
      · show (jobTraj w b rc out err times j0 n).attempts + 1 = n + 1
        rw [ha]
      · show some (times n + b ^ ((jobTraj w b rc out err times j0 n).attempts + 1)) =
            some (failAvail a0 b times (n + 1))
        rw [ha]
        rfl
      · exact hid
      · exact hm
      · exact hc

/-- One more failing cycle past the budget kills the job: at step `r + 1`
the trajectory is dead with `attempts = r + 1 > max_retries`. -/
theorem jobTraj_dead (w : String) (b rc : Int) (out err : String)
    (times : Nat → Int) (j0 : Job) (a0 : Int) (r : Nat)
    (hrc : rc ≠ 0) (hstate : j0.state = .pending) (hatt : j0.attempts = 0)
    (hav : j0.available_at = some a0) (hmr : j0.max_retries = (r : Int)) :
    (jobTraj w b rc out err times j0 (r + 1)).state = .dead ∧
    (jobTraj w b rc out err times j0 (r + 1)).attempts = r + 1 ∧
    (jobTraj w b rc out err times j0 (r + 1)).id = j0.id ∧
    (jobTraj w b rc out err times j0 (r + 1)).max_retries = (r : Int) ∧
    (((jobTraj w b rc out err times j0 (r + 1)).attempts : Nat) : Int) >
      (jobTraj w b rc out err times j0 (r + 1)).max_retries := by
  obtain ⟨hs, ha, hv, hid, hm, hc⟩ :=
    jobTraj_fields w b rc out err times j0 a0 r hrc hstate hatt hav hmr r
      (le_refl r)
  have hcond : (((jobTraj w b rc out err times j0 r).attempts + 1 : Nat) : Int) >
      (jobTraj w b rc out err times j0 r).max_retries := by
    rw [ha, hm]
    exact_mod_cast Nat.lt_succ_self r
  have hres := processUpdate_self_dead b rc out err (times r)
    { jobTraj w b rc out err times j0 r with state := .processing, locked_by := some w, updated_at := times r }
    hrc hcond
  have hstep : jobTraj w b rc out err times j0 (r + 1) =
      processUpdate b { jobTraj w b rc out err times j0 r with state := .processing, locked_by := some w, updated_at := times r } rc out err (times r) { jobTraj w b rc out err times j0 r with state := .processing, locked_by := some w, updated_at := times r } := rfl
  rw [hstep, hres]
  refine ⟨rfl, ?_, ?_, ?_, ?_⟩
  · show (jobTraj w b rc out err times j0 r).attempts + 1 = r + 1
    rw [ha]
  · exact hid
  · exact hm
  · exact hcond

/-- Worker-loop characterization on a singleton always-failing job: with the
stop flag clear and each cycle time at or past the job's availability, `fuel`
iterations starting at iteration index `i` advance the trajectory to step
`min (i + fuel) (r + 1)` and claim-and-execute exactly
`min fuel (r + 1 - i)` times. -/
theorem run_worker_single_fail (w : String) (rc : Int) (out err : String)
    (exec : String → Int × String × String) (times : Nat → Int)
    (cfg : List (String × String)) (j0 : Job) (a0 : Int) (r : Nat)
    (hstop : shouldStop cfg = false) (hrc : rc ≠ 0)
    (hexec : exec j0.command = (rc, out, err))
    (hstate : j0.state = .pending) (hatt : j0.attempts = 0)
    (hav : j0.available_at = some a0)
    (hmr : j0.max_retries = (r : Int))
    (htimes : ∀ k, failAvail a0 (backoffBase cfg) times k ≤ times k) :
    ∀ fuel i, i ≤ r + 1 →
      run_worker w exec times fuel i
          { jobs := [jobTraj w (backoffBase cfg) rc out err times j0 i], config := cfg } =
        ({ jobs := [jobTraj w (backoffBase cfg) rc out err times j0 (min (i + fuel) (r + 1))], config := cfg },
         min fuel (r + 1 - i)) := by
  intro fuel
  induction fuel with
  | zero =>
      intro i hi
      rw [show min (i + 0) (r + 1) = i by omega,
          show min 0 (r + 1 - i) = 0 by omega]
      rfl
  | succ n ih =>
      intro i hi
      rcases Nat.lt_or_ge i (r + 1) with hlt | hge
      · have hir : i ≤ r := by omega
        obtain ⟨hs, ha, hv, hid, hm, hc⟩ :=
          jobTraj_fields w (backoffBase cfg) rc out err times j0 a0 r hrc
            hstate hatt hav hmr i hir
        have havail : availOk (times i)
            (jobTraj w (backoffBase cfg) rc out err times j0 i) = true := by
          unfold availOk
          rw [hv]
          exact decide_eq_true (htimes i)
        have hclaim := claim_job_single_eligible cfg
          (jobTraj w (backoffBase cfg) rc out err times j0 i) (times i) w hs
          havail
        have hexec2 : exec (jobTraj w (backoffBase cfg) rc out err times j0 i).command = (rc, out, err) := by
          rw [hc]
          exact hexec
        unfold run_worker
        rw [hstop]
        rw [hclaim]
        dsimp only
        rw [hexec2]
        show ((run_worker w exec times n (i + 1) { jobs := [jobTraj w (backoffBase cfg) rc out err times j0 (i + 1)], config := cfg }).1, (run_worker w exec times n (i + 1) { jobs := [jobTraj w (backoffBase cfg) rc out err times j0 (i + 1)], config := cfg }).2 + 1) = ({ jobs := [jobTraj w (backoffBase cfg) rc out err times j0 (min (i + (n + 1)) (r + 1))], config := cfg }, min (n + 1) (r + 1 - i))
        rw [ih (i + 1) (by omega)]
        rw [show min (i + 1 + n) (r + 1) = min (i + (n + 1)) (r + 1) by omega,
            show min n (r + 1 - (i + 1)) + 1 = min (n + 1) (r + 1 - i) by omega]
      · have hieq : i = r + 1 := by omega
        subst hieq
        obtain ⟨hds, hda, hdi, hdm, hdgt⟩ :=
          jobTraj_dead w (backoffBase cfg) rc out err times j0 a0 r hrc
            hstate hatt hav hmr
        rw [run_worker_single_dead w exec times cfg _ hstop hds (n + 1)
          (r + 1)]
        rw [show min (r + 1 + (n + 1)) (r + 1) = r + 1 by omega,
            show min (n + 1) (r + 1 - (r + 1)) = 0 by omega]

/-- **C2.** A job with `max_retries = r` whose command fails on every
execution reaches `dead` after exactly `r + 1` executions, never fewer and
never more: running the worker loop on it executes it `min fuel (r + 1)`
times, the job is still pending (not dead) with `attempts = fuel` after any
`fuel ≤ r` iterations, and from `r + 1` iterations onward it is dead with
`attempts = r + 1` and no further executions ever happen.  Moreover,
whenever `process_job_row` moves the fetched row to `dead`, the stored
attempts value strictly exceeds `max_retries`. -/
theorem always_fail_terminal (w : String) (rc : Int) (out err : String)
    (exec : String → Int × String × String) (times : Nat → Int)
    (cfg : List (String × String)) (j0 : Job) (a0 : Int) (r : Nat)
    (hstop : shouldStop cfg = false) (hrc : rc ≠ 0)
    (hexec : exec j0.command = (rc, out, err))
    (hstate : j0.state = .pending) (hatt : j0.attempts = 0)
    (hav : j0.available_at = some a0) (hmr : j0.max_retries = (r : Int))
    (htimes : ∀ k, failAvail a0 (backoffBase cfg) times k ≤ times k) :
    (∀ fuel, (run_worker w exec times fuel 0 { jobs := [j0], config := cfg }).2 = min fuel (r + 1)) ∧
    (∀ fuel, fuel ≤ r → ∃ jj, (run_worker w exec times fuel 0 { jobs := [j0], config := cfg }).1.jobs = [jj] ∧ jj.state = .pending ∧ jj.attempts = fuel) ∧
    (∀ fuel, r + 1 ≤ fuel → ∃ jj, (run_worker w exec times fuel 0 { jobs := [j0], config := cfg }).1.jobs = [jj] ∧ jj.state = .dead ∧ jj.attempts = r + 1 ∧ ((jj.attempts : Nat) : Int) > jj.max_retries) ∧
    (∀ (b2 : Int) (row : Job) (rc2 : Int) (o2 e2 : String) (t2 : Int),
        (processUpdate b2 row rc2 o2 e2 t2 row).state = .dead →
        (((processUpdate b2 row rc2 o2 e2 t2 row).attempts : Nat) : Int) >
          (processUpdate b2 row rc2 o2 e2 t2 row).max_retries) := by
  have hmain : ∀ fuel,
      run_worker w exec times fuel 0 { jobs := [j0], config := cfg } =
        ({ jobs := [jobTraj w (backoffBase cfg) rc out err times j0 (min fuel (r + 1))], config := cfg },
         min fuel (r + 1)) := by
    intro fuel
    have h := run_worker_single_fail w rc out err exec times cfg j0 a0 r
      hstop hrc hexec hstate hatt hav hmr htimes fuel 0 (by omega)
    rw [show min (0 + fuel) (r + 1) = min fuel (r + 1) by omega,
        show r + 1 - 0 = r + 1 by omega] at h
    exact h
  refine ⟨?_, ?_, ?_, ?_⟩
  · intro fuel
    rw [hmain fuel]
  · intro fuel hfr
    refine ⟨jobTraj w (backoffBase cfg) rc out err times j0 fuel, ?_, ?_, ?_⟩
    · rw [hmain fuel, show min fuel (r + 1) = fuel by omega]
    · exact (jobTraj_fields w (backoffBase cfg) rc out err times j0 a0 r hrc
        hstate hatt hav hmr fuel hfr).1
    · exact (jobTraj_fields w (backoffBase cfg) rc out err times j0 a0 r hrc
        hstate hatt hav hmr fuel hfr).2.1
  · intro fuel hfr
    obtain ⟨hds, hda, hdi, hdm, hdgt⟩ :=
      jobTraj_dead w (backoffBase cfg) rc out err times j0 a0 r hrc hstate
        hatt hav hmr
    refine ⟨jobTraj w (backoffBase cfg) rc out err times j0 (r + 1), ?_, hds,
      hda, hdgt⟩
    rw [hmain fuel, show min fuel (r + 1) = r + 1 by omega]
  · intro b2 row rc2 o2 e2 t2 hdead
    revert hdead
    unfold processUpdate
    rw [if_pos rfl]
    by_cases h0 : rc2 = 0
    · rw [if_pos h0]
      intro hdead
      exact JobState.noConfusion hdead
    · rw [if_neg h0]
      dsimp only
      by_cases hgt : ((row.attempts + 1 : Nat) : Int) > row.max_retries
      · rw [if_pos hgt]
        intro _
        exact hgt
      · rw [if_neg hgt]
        intro hdead
        exact JobState.noConfusion hdead

/-- A concrete always-failing job with `max_retries = 1`. -/
def sampleFail : Job :=
  { id := "f1", command := "bad", state := .pending, attempts := 0,
    max_retries := 1, created_at := 0, updated_at := 0,
    available_at := some 0, locked_by := none, last_error := none,
    stdout := none, stderr := none }

/-- Concrete instance discharging the hypotheses of `always_fail_terminal`:
`max_retries = 1`, every execution exits 1, five loop iterations — exactly
2 executions happen. -/
theorem always_fail_terminal_witness :
    (run_worker "w1" (fun _ => (1, "o", "e")) (fun k => (k : Int)) 5 0
      { jobs := [sampleFail], config := [("backoff_base", "1")] }).2 = 2 := by
  have hb : backoffBase [("backoff_base", "1")] = 1 := rfl
  have h := always_fail_terminal "w1" 1 "o" "e" (fun _ => (1, "o", "e"))
    (fun k => (k : Int)) [("backoff_base", "1")] sampleFail 0 1
    (by rfl) (by decide) (by rfl) (by rfl) (by rfl) (by rfl) (by rfl)
    (by
      intro k
      cases k with
      | zero =>
          simp [failAvail]
      | succ m =>
          simp [failAvail, hb])
  have h1 := h.1 5
  rw [h1]
  decide

/-! ### C8: enqueue validation -/

/-- **C8 is false on the code as stated**: a `max_retries` value that is not
a non-negative integer — here the string `"5"` — is not rejected.  Python's
`int()` coerces it, and the job is enqueued with `max_retries = 5`. -/
theorem enqueue_max_retries_coercion_cex :
    (enqueue_job { jobs := [], config := [] }
        (.obj [("id", JValue.str "a"), ("command", JValue.str "b"),
               ("max_retries", JValue.str "5")]) 0).1 =
      .ok { id := "a", command := "b", state := .pending, attempts := 0,
            max_retries := 5, created_at := 0, updated_at := 0,
            available_at := some 0, locked_by := none, last_error := none,
            stdout := none, stderr := none } := by
  rfl

/-- A validation error makes `enqueue_job` report it with the store
untouched. -/
theorem enqueue_err_of_validate_err (s : Store) (v : JValue) (now : Int)
    (e : String) (hval : validate_job_dict s.config v now = .error e) :
    enqueue_job s v now = (.error e, s) := by
  unfold enqueue_job
  rw [hval]

/-- When enqueue fails for any reason, the jobs table is untouched. -/
theorem enqueue_err_snd (s : Store) (v : JValue) (now : Int)
    (h : (enqueue_job s v now).1.isOk = false) :
    (enqueue_job s v now).2 = s := by
  revert h
  unfold enqueue_job
  rcases hv : validate_job_dict s.config v now with e | jj
  · intro _
    rfl
  · dsimp only
    split
    · intro _
      rfl
    · intro h
      exact absurd h (by simp [Except.isOk, Except.toBool])

/-- Inversion of a successful enqueue: the payload validated, no job with
the same id existed, and the row was appended. -/
theorem enqueue_ok_inversion (s : Store) (v : JValue) (now : Int) (job : Job)
    (h : (enqueue_job s v now).1 = .ok job) :
    validate_job_dict s.config v now = .ok job ∧
    (s.jobs.any (fun k => k.id == job.id)) = false ∧
    (enqueue_job s v now).2 = { s with jobs := s.jobs ++ [job] } := by
  revert h
  unfold enqueue_job
  rcases hv : validate_job_dict s.config v now with e | jj
  · intro h
    exact Except.noConfusion h
  · dsimp only
    split
    · intro h
      exact Except.noConfusion h
    · next hany =>
        intro h
        cases h
        exact ⟨rfl, by simpa using hany, rfl⟩

/-- A payload whose `id` check fails is rejected with the id message. -/
theorem validate_id_bad (cfg : List (String × String))
    (fields : List (String × JValue)) (now : Int)
    (hid : idFieldOk fields = false) :
    validate_job_dict cfg (.obj fields) now =
      .error "job must contain a non-empty string 'id' field" := by
  unfold idFieldOk at hid
  unfold validate_job_dict
  dsimp only
  rcases hlk : jLookup fields "id" with _ | x
  · rfl
  · rw [hlk] at hid
    cases x with
    | str i =>
        have hie : pyStrip i = "" := by simpa using hid
        dsimp only
        rw [if_pos hie]
    | null => rfl
    | bool b => rfl
    | int n => rfl
    | arr xs => rfl
    | obj fs => rfl

/-- With a good `id`, a payload whose `command` check fails is rejected with
the command message. -/
theorem validate_cmd_bad (cfg : List (String × String))
    (fields : List (String × JValue)) (now : Int)
    (hidok : idFieldOk fields = true)
    (hcmd : commandFieldOk fields = false) :
    validate_job_dict cfg (.obj fields) now =
      .error "job must contain a non-empty string 'command' field" := by
  unfold idFieldOk at hidok
  unfold commandFieldOk at hcmd
  unfold validate_job_dict
  dsimp only
  rcases hlk : jLookup fields "id" with _ | x
  · rw [hlk] at hidok
    simp at hidok
  · rw [hlk] at hidok
    cases x with
    | str i =>
        have hine : ¬pyStrip i = "" := by simpa using hidok
        dsimp only
        rw [if_neg hine]
        rcases hlk2 : jLookup fields "command" with _ | y
        · rfl
        · rw [hlk2] at hcmd
          cases y with
          | str c =>
              have hce : pyStrip c = "" := by simpa using hcmd
              dsimp only
              rw [if_pos hce]
          | null => rfl
          | bool b => rfl
          | int n => rfl
          | arr xs => rfl
          | obj fs => rfl
    | null => simp at hidok
    | bool b => simp at hidok
    | int n => simp at hidok
    | arr xs => simp at hidok
    | obj fs => simp at hidok

/-- A present non-null `max_retries` that Python `int()` cannot coerce, or
that coerces to a negative integer, makes the field computation fail. -/
theorem maxRetriesField_err (cfg : List (String × String))
    (fields : List (String × JValue)) (mv : JValue)
    (hmv : jLookup fields "max_retries" = some mv) (hnn : mv ≠ .null)
    (hbad : pyToInt mv = none ∨ ∃ n, pyToInt mv = some n ∧ n < 0) :
    maxRetriesField cfg fields =
      .error "max_retries must be a non-negative integer" := by
  have hnul : jIsNull mv = false := by
    cases mv with
    | null => exact absurd rfl hnn
    | bool b => rfl
    | int n => rfl
    | str s2 => rfl
    | arr xs => rfl
    | obj fs => rfl
  unfold maxRetriesField
  rw [hmv]
  dsimp only
  rw [hnul, if_neg Bool.false_ne_true]
  rcases hbad with hnone | ⟨n, hn, hneg⟩
  · rw [hnone]
  · rw [hn]
    dsimp only
    rw [if_pos hneg]

/-- With good `id` and `command`, a failing `max_retries` computation makes
validation fail with its message. -/
theorem validate_mr_bad (cfg : List (String × String))
    (fields : List (String × JValue)) (now : Int) (e : String)
    (hidok : idFieldOk fields = true)
    (hcmdok : commandFieldOk fields = true)
    (hmr : maxRetriesField cfg fields = .error e) :
    validate_job_dict cfg (.obj fields) now = .error e := by
  unfold idFieldOk at hidok
  unfold commandFieldOk at hcmdok
  unfold validate_job_dict
  dsimp only
  rcases hlk : jLookup fields "id" with _ | x
  · rw [hlk] at hidok
    simp at hidok
  · rw [hlk] at hidok
    cases x with
    | str i =>
        have hine : ¬pyStrip i = "" := by simpa using hidok
        dsimp only
        rw [if_neg hine]
        rcases hlk2 : jLookup fields "command" with _ | y
        · rw [hlk2] at hcmdok
          simp at hcmdok
        · rw [hlk2] at hcmdok
          cases y with
          | str c =>
              have hcne : ¬pyStrip c = "" := by simpa using hcmdok
              dsimp only
              rw [if_neg hcne, hmr]
          | null => simp at hcmdok
          | bool b => simp at hcmdok
          | int n => simp at hcmdok
          | arr xs => simp at hcmdok
          | obj fs => simp at hcmdok
    | null => simp at hidok
    | bool b => simp at hidok
    | int n => simp at hidok
    | arr xs => simp at hidok
    | obj fs => simp at hidok

/-- A successful validation fixes the job id to the stripped payload id. -/
theorem validate_ok_id (cfg : List (String × String))
    (fields : List (String × JValue)) (now : Int) (job : Job) (i : String)
    (hlk : jLookup fields "id" = some (.str i))
    (h : validate_job_dict cfg (.obj fields) now = .ok job) :
    job.id = pyStrip i := by
  unfold validate_job_dict at h
  dsimp only at h
  rw [hlk] at h
  dsimp only at h
  repeat' split at h
  all_goals try exact Except.noConfusion h
  cases h
  rfl

/-- **C8 (amended).** `enqueue_job` raises a validation error when the
payload is not an object or when `id` or `command` is missing, not a string,
or empty after stripping; it raises a duplicate-id error when a job with the
same (stripped) id already exists; and it raises a validation error when
`max_retries` is present and non-null but Python's `int()` cannot coerce it,
or coerces it to a negative integer — coercible values such as numeric
strings or booleans are accepted rather than rejected (see the
counterexample).  In every error case no job row is written; on success
exactly the new row is appended. -/
theorem enqueue_validation (s : Store) (v : JValue) (now : Int) :
    ((enqueue_job s v now).1.isOk = false → (enqueue_job s v now).2 = s) ∧
    ((∀ fields, v ≠ .obj fields) → (enqueue_job s v now).1.isOk = false) ∧
    (∀ fields, v = .obj fields → idFieldOk fields = false →
        (enqueue_job s v now).1.isOk = false) ∧
    (∀ fields, v = .obj fields → commandFieldOk fields = false →
        (enqueue_job s v now).1.isOk = false) ∧
    (∀ fields mv, v = .obj fields →
        jLookup fields "max_retries" = some mv → mv ≠ .null →
        (pyToInt mv = none ∨ ∃ n, pyToInt mv = some n ∧ n < 0) →
        (enqueue_job s v now).1.isOk = false) ∧
    (∀ fields i, v = .obj fields → jLookup fields "id" = some (.str i) →
        (∃ jj ∈ s.jobs, jj.id = pyStrip i) →
        (enqueue_job s v now).1.isOk = false) ∧
    (∀ job, (enqueue_job s v now).1 = .ok job →
        (∀ jj ∈ s.jobs, jj.id ≠ job.id) ∧
        (enqueue_job s v now).2.jobs = s.jobs ++ [job]) := by
  refine ⟨enqueue_err_snd s v now, ?_, ?_, ?_, ?_, ?_, ?_⟩
  · intro h
    have hex : ∃ e, validate_job_dict s.config v now = .error e := by
      cases v with
      | obj fields => exact absurd rfl (h fields)
      | null => exact ⟨_, rfl⟩
      | bool b => exact ⟨_, rfl⟩
      | int n => exact ⟨_, rfl⟩
      | str s2 => exact ⟨_, rfl⟩
      | arr xs => exact ⟨_, rfl⟩
    obtain ⟨e, he⟩ := hex
    rw [enqueue_err_of_validate_err s v now e he]
    rfl
  · intro fields hv hid
    subst hv
    rw [enqueue_err_of_validate_err s _ now _
      (validate_id_bad s.config fields now hid)]
    rfl
  · intro fields hv hcmd
    subst hv
    cases hidok : idFieldOk fields with
    | false =>
        rw [enqueue_err_of_validate_err s _ now _
          (validate_id_bad s.config fields now hidok)]
        rfl
    | true =>
        rw [enqueue_err_of_validate_err s _ now _
          (validate_cmd_bad s.config fields now hidok hcmd)]
        rfl
  · intro fields mv hv hmv hnn hbad
    subst hv
    cases hidok : idFieldOk fields with
    | false =>
        rw [enqueue_err_of_validate_err s _ now _
          (validate_id_bad s.config fields now hidok)]
        rfl
    | true =>
        cases hcmdok : commandFieldOk fields with
        | false =>
            rw [enqueue_err_of_validate_err s _ now _
              (validate_cmd_bad s.config fields now hidok hcmdok)]
            rfl
        | true =>
            rw [enqueue_err_of_validate_err s _ now _
              (validate_mr_bad s.config fields now _ hidok hcmdok
                (maxRetriesField_err s.config fields mv hmv hnn hbad))]
            rfl
  · intro fields i hv hlk hdup
    subst hv
    cases hok : (enqueue_job s (.obj fields) now).1 with
    | error e => simp [Except.isOk, Except.toBool]
    | ok job =>
        obtain ⟨hval, hany, _⟩ := enqueue_ok_inversion s _ now job hok
        have hjid : job.id = pyStrip i :=
          validate_ok_id s.config fields now job i hlk hval
        obtain ⟨jj, hjj, hjid2⟩ := hdup
        have hne : (s.jobs.any fun k => k.id == job.id) = true :=
          List.any_eq_true.mpr ⟨jj, hjj,
            beq_iff_eq.mpr (by rw [hjid, hjid2])⟩
        rw [hne] at hany
        exact Bool.noConfusion hany
  · intro job hok
    obtain ⟨hval, hany, hsnd⟩ := enqueue_ok_inversion s v now job hok
    constructor
    · intro jj hjj heq
      have hne : (s.jobs.any fun k => k.id == job.id) = true :=
        List.any_eq_true.mpr ⟨jj, hjj, beq_iff_eq.mpr heq⟩
      rw [hne] at hany
      exact Bool.noConfusion hany
    · rw [hsnd]

/-- Concrete instance discharging hypotheses of `enqueue_validation`: a
payload with no `id` field is rejected and writes nothing. -/
theorem enqueue_validation_witness :
    ((enqueue_job { jobs := [], config := [] }
        (.obj [("command", JValue.str "x")]) 0).1.isOk = false) ∧
    ((enqueue_job { jobs := [], config := [] }
        (.obj [("command", JValue.str "x")]) 0).2 =
      { jobs := [], config := [] }) := by
  have h := enqueue_validation { jobs := [], config := [] }
    (.obj [("command", JValue.str "x")]) 0
  have h3 := h.2.2.1 [("command", JValue.str "x")] rfl (by rfl)
  exact ⟨h3, h.1 h3⟩

end Queuectl
